import Mathlib

/-!
Verification of the `ruis` sampler core (`src/sampler.rs`) against its
natural-language specification.

Floating-point (`f32`) arithmetic is modelled by exact rationals (`ℚ`).
The two transcendental primitives used by the source, `f32::powf(2., x)`
(pitch ratios) and `f32::powf(10., x)` (decibel gain), are modelled as
uninterpreted functions `powf2 pow10 : ℚ → ℚ` passed explicitly to the
operations that use them.  Rust's saturating `f32 as usize` cast is
modelled by `posIndex`.  A Rust slice-index panic is modelled by `Option`:
`none` is a panic.

The envelope (`env.rs`), parameter registry (`param.rs`), the event type
(`seq.rs`) and the instrument trait (`host.rs`) are not under `src/`;
they are modelled from the spec where the sampler code needs them (see
the doc comments on `Envelope`, `Param`, `ParamKey`, `Event`).
-/

namespace Ruis

/-- Stereo sample frame: a (left, right) pair of normalized amplitudes
(struct `Frame`, sampler.rs). -/
structure Frame where
  left : ℚ
  right : ℚ
  deriving DecidableEq, Repr

/-- `impl Mul<f32> for &Frame` (sampler.rs): scalar scaling. -/
def Frame.mul (f : Frame) (c : ℚ) : Frame := ⟨f.left * c, f.right * c⟩

/-- `impl Add for Frame` (sampler.rs): pairwise addition. -/
def Frame.add (a b : Frame) : Frame := ⟨a.left + b.left, a.right + b.right⟩

/-- Modelled from the spec: `env.rs` is not under `src/`.  The spec's
envelope contract exposes an observable state with at least the terminal
"at rest" indicator (`Init`, the name the sampler matches on), a
start-attack and a start-release transition. -/
inductive EnvelopeState where
  | Init
  | Attack
  | Release
  deriving DecidableEq, Repr

/-- Modelled from the spec: `env.rs` is not under `src/`.  Per the spec's
envelope contract the envelope has settable stage durations (attack,
decay, sustain, release), a per-sample amplitude query `value()`
(modelled by the `level` field, read-only here since the envelope's
internal timing/curve math is out of scope), and an observable `state`. -/
structure Envelope where
  attack : ℚ
  decay : ℚ
  sustain : ℚ
  release : ℚ
  level : ℚ
  state : EnvelopeState
  deriving DecidableEq, Repr

/-- Modelled from the spec: a fresh envelope is at rest. -/
def Envelope.new : Envelope :=
  { attack := 0, decay := 0, sustain := 0, release := 0, level := 0
    state := EnvelopeState.Init }

/-- Modelled from the spec: `start_attack()` begins the attack stage. -/
def Envelope.start_attack (e : Envelope) : Envelope :=
  { e with state := EnvelopeState.Attack }

/-- Modelled from the spec: `start_release()` begins the release stage
from any stage. -/
def Envelope.start_release (e : Envelope) : Envelope :=
  { e with state := EnvelopeState.Release }

/-- Modelled from the spec: `value()` returns the current envelope
amplitude. -/
def Envelope.value (e : Envelope) : ℚ := e.level

/-- Modelled from the spec: unit tags for parameters (decibels, seconds,
raw sample count; `param.rs` is not under `src/`). -/
inductive Unit where
  | Decibel
  | Seconds
  | Samples
  | NoUnit
  deriving DecidableEq, Repr

/-- Modelled from the spec: `param.rs` is not under `src/`.  A `Param` is
a bounded scalar control carrying default, minimum, maximum, step and an
optional unit tag, plus the current value `val` (read by `get_param`,
written by `set_param`), which starts at the default.  The constructor
argument order `(min, default, max, step)` is the one consistent with the
sampler's call sites: it gives Attack the spec's stated default 0.005 s
and range [0.005 s, 15 s], and it makes the Offset parameter's initial
value the detected onset so that playback starts at the detected onset,
as the spec requires. -/
structure Param where
  val : ℚ
  default : ℚ
  min : ℚ
  max : ℚ
  step : ℚ
  unit : Unit
  deriving DecidableEq, Repr

/-- Modelled from the spec: `Param::new` registers a control; the current
value starts at the default and the unit tag is initially absent. -/
def Param.new (mn df mx st : ℚ) : Param :=
  { val := df, default := df, min := mn, max := mx, step := st
    unit := Unit.NoUnit }

/-- Modelled from the spec: `.with_unit(u)` tags the parameter. -/
def Param.with_unit (p : Param) (u : Unit) : Param := { p with unit := u }

/-- enum `SamplerParam` (sampler.rs). -/
inductive SamplerParam where
  | Amp
  | Offset
  | Attack
  | Decay
  | Sustain
  | Release
  deriving DecidableEq, Repr

/-- The sampler's parameter map.  The Rust code stores the six
`SamplerParam` keys in a `HashMap` that `with_sample` always populates
completely (the spec: "the engine's own parameter set is fixed at
construction and always complete"), so it is modelled as a record with
one `Param` per key. -/
structure Params where
  amp : Param
  offset : Param
  attack : Param
  decay : Param
  sustain : Param
  release : Param
  deriving DecidableEq, Repr

/-- Lookup in the parameter map (`self.params.get(&key)`). -/
def Params.get (ps : Params) : SamplerParam → Param
  | SamplerParam.Amp => ps.amp
  | SamplerParam.Offset => ps.offset
  | SamplerParam.Attack => ps.attack
  | SamplerParam.Decay => ps.decay
  | SamplerParam.Sustain => ps.sustain
  | SamplerParam.Release => ps.release

/-- Write of a parameter's current value (`param.val = value` in
`set_param`); the registered default/min/max/step/unit are untouched. -/
def Params.set (ps : Params) (k : SamplerParam) (v : ℚ) : Params :=
  match k with
  | SamplerParam.Amp => { ps with amp := { ps.amp with val := v } }
  | SamplerParam.Offset => { ps with offset := { ps.offset with val := v } }
  | SamplerParam.Attack => { ps with attack := { ps.attack with val := v } }
  | SamplerParam.Decay => { ps with decay := { ps.decay with val := v } }
  | SamplerParam.Sustain => { ps with sustain := { ps.sustain with val := v } }
  | SamplerParam.Release => { ps with release := { ps.release with val := v } }

/-- Modelled from the spec: `ParamKey` (`param.rs`, not under `src/`) is
the shared key space over all instruments; the sampler's `set_param`
only matches the `Sampler` variant, every other key is "not for me". -/
inductive ParamKey where
  | Sampler (key : SamplerParam)
  | Other
  deriving DecidableEq, Repr

/-- enum `VoiceState` (sampler.rs). -/
inductive VoiceState where
  | Free
  | Busy
  deriving DecidableEq, Repr

/-- struct `Voice` (sampler.rs). -/
structure Voice where
  position : ℚ
  state : VoiceState
  pitch_ratio : ℚ
  pitch : ℤ
  column : ℕ
  env : Envelope
  deriving DecidableEq, Repr

/-- `Voice::new` (sampler.rs). -/
def Voice.new : Voice :=
  { position := 0, column := 0, pitch := 0, pitch_ratio := 0
    state := VoiceState.Free, env := Envelope.new }

/-- struct `Sampler` (sampler.rs).  `samples` is the frame store,
`sample_rate` its native rate from the WAV header. -/
structure Sampler where
  voices : List Voice
  samples : List Frame
  sample_rate : ℚ
  params : Params
  deriving DecidableEq, Repr

/-- Modelled from the spec: `seq.rs` is not under `src/`; the event
contract is the closed variant type the sampler matches on. -/
inductive Event where
  | NoteOn (pitch : ℤ)
  | NoteOff (pitch : ℤ)
  | Empty
  deriving DecidableEq, Repr

/-- `const ROOT_PITCH: i32 = 48` (sampler.rs). -/
def ROOT_PITCH : ℤ := 48

/-- `pub const SAMPLE_RATE: f64 = 44_100.0` (vibe/mod.rs). -/
def SAMPLE_RATE : ℚ := 44100

/-- `const SILENCE: f32 = 0.01` (load_sound, sampler.rs). -/
def SILENCE : ℚ := 1/100

/-- `f32::MAX`, the exact value (2 - 2^-23) * 2^127. -/
def f32MAX : ℚ := 340282346638528859811704183484516925440

/-- The onset scan of `load_sound` (sampler.rs lines 130-140):
`offset` starts at 0; the first frame with `¬(left < 0.01 ∧ right < 0.01)`
sets `offset` to its index and breaks; if no frame breaks the loop,
`offset` keeps its initial value 0. -/
def findOffsetAux : ℕ → List Frame → ℕ
  | _, [] => 0
  | i, f :: rest =>
    if f.left < SILENCE ∧ f.right < SILENCE then findOffsetAux (i + 1) rest
    else i

/-- Start-offset detection over a decoded frame store. -/
def findOffset (samples : List Frame) : ℕ := findOffsetAux 0 samples

/-- `Sampler::with_sample` (sampler.rs lines 74-112) after the external
WAV decode: 8 fresh voices and the six registered parameters.  The file
decoding itself (hound) is an external collaborator; construction is
embedded from the decoded frame list and native rate onward. -/
def mkSampler (sample_rate : ℚ) (samples : List Frame) : Sampler :=
  let offset := findOffset samples
  { voices := List.replicate 8 Voice.new
    samples := samples
    sample_rate := sample_rate
    params :=
      { amp := (Param.new (-75) (-6) 6 1).with_unit Unit.Decibel
        offset := (Param.new 0 (offset : ℚ) f32MAX 1).with_unit Unit.Samples
        attack := (Param.new (1/200) (1/200) 15 (1/1000)).with_unit Unit.Seconds
        decay := (Param.new (1/200) (1/4) 15 (1/1000)).with_unit Unit.Seconds
        sustain := Param.new (1/200) 0 15 (1/1000)
        release := (Param.new (1/200) 0 15 (1/1000)).with_unit Unit.Seconds } }

/-- `get_param` (sampler.rs): the parameter set is complete by
construction, so the lookup is total. -/
def get_param (s : Sampler) (p : SamplerParam) : ℚ := (s.params.get p).val

/-- `iter_mut().find(pred)` followed by a mutation of the found element:
rewrite the first element satisfying `p`, leave everything else alone. -/
def modifyFirst {α : Type} (p : α → Bool) (f : α → α) : List α → List α
  | [] => []
  | x :: xs => if p x then f x :: xs else x :: modifyFirst p f xs

/-- The predicate of `note_on`'s voice search: a Free voice. -/
def isFree (v : Voice) : Bool := decide (v.state = VoiceState.Free)

/-- The predicate of `note_off`'s voice search: Busy, same column, same
pitch. -/
def noteMatch (column : ℕ) (pitch : ℤ) (v : Voice) : Bool :=
  decide (v.state = VoiceState.Busy ∧ v.column = column ∧ v.pitch = pitch)

/-- The predicate of `stop_note`'s voice search: Busy, same column. -/
def colMatch (column : ℕ) (v : Voice) : Bool :=
  decide (v.state = VoiceState.Busy ∧ v.column = column)

/-- `note_on` (sampler.rs lines 162-181).  `powf2 x` models
`f32::powf(2., x)`.  The first Free voice (if any) gets the current
ADSR parameter values, its envelope's attack transition, the Busy state,
pitch, column and the pitch ratio; with no Free voice the pool is
unchanged (the event is dropped). -/
def note_on (powf2 : ℚ → ℚ) (s : Sampler) (column : ℕ) (pitch : ℤ) : Sampler :=
  let attack := get_param s SamplerParam.Attack
  let decay := get_param s SamplerParam.Decay
  let sustain := get_param s SamplerParam.Sustain
  let release := get_param s SamplerParam.Release
  { s with voices := modifyFirst isFree (fun v =>
      { v with
        env := Envelope.start_attack
          { v.env with attack := attack, decay := decay
                       sustain := sustain, release := release }
        state := VoiceState.Busy
        pitch := pitch
        column := column
        pitch_ratio :=
          powf2 (((pitch - ROOT_PITCH : ℤ) : ℚ) / 12)
            * (s.sample_rate / SAMPLE_RATE) }) s.voices }

/-- `note_off` (sampler.rs lines 183-191): start the release of the
first Busy voice matching column and pitch; no-op without a match. -/
def note_off (s : Sampler) (column : ℕ) (pitch : ℤ) : Sampler :=
  { s with voices := (modifyFirst (noteMatch column pitch)
      (fun v => { v with env := Envelope.start_release v.env }) s.voices) }

/-- `stop_note` (sampler.rs lines 193-202): force a short (5 ms) release
on the first Busy voice of the column. -/
def stop_note (s : Sampler) (column : ℕ) : Sampler :=
  { s with voices := (modifyFirst (colMatch column)
      (fun v => { v with env :=
        Envelope.start_release { v.env with release := 1/200 } }) s.voices) }

/-- `gain_factor` (sampler.rs lines 205-207); `pow10 x` models
`f32::powf(10.0, x)`. -/
def gain_factor (pow10 : ℚ → ℚ) (db : ℚ) : ℚ := pow10 (db / 20)

/-- `set_param` (sampler.rs lines 210-217): a `Sampler`-owned key stores
the value verbatim in `val`; any other key is ignored; the result is
always `Ok`. -/
def set_param (s : Sampler) (key : ParamKey) (value : ℚ) :
    Except String Sampler :=
  match key with
  | ParamKey.Sampler k => Except.ok { s with params := s.params.set k value }
  | ParamKey.Other => Except.ok s

/-- `send_event` (sampler.rs lines 219-230). -/
def send_event (powf2 : ℚ → ℚ) (s : Sampler) (column : ℕ) (event : Event) :
    Sampler :=
  match event with
  | Event.NoteOn pitch => note_on powf2 (stop_note s column) column pitch
  | Event.NoteOff pitch => note_off s column pitch
  | Event.Empty => s

/-- Rust's `f32 as usize` cast for the playback cursor (`voice.position
as usize`): truncation toward zero, saturating at 0 for negative input;
on nonnegative input it agrees with the floor. -/
def posIndex (q : ℚ) : ℕ := (⌊q⌋).toNat

/-- The exclusive cursor bound `(self.samples.len() - 1) as f32` of the
render loop. -/
def lastIdx (samples : List Frame) : ℚ := ((samples.length - 1 : ℕ) : ℚ)

/-- The per-voice inner render loop (sampler.rs lines 244-262), one
recursion step per output slot.  Reads `samples[pos]` and
`samples[pos+1]` (a slice-index panic is `none`), accumulates the
interpolated, enveloped, amplified frame into the slot, advances the
cursor by the pitch ratio, and retires the voice (Free, cursor reset to
`offset`, remaining slots untouched) as soon as the advanced cursor
reaches `samples.len() - 1`. -/
def voiceLoop (samples : List Frame) (amp offset : ℚ) :
    Voice → List (ℚ × ℚ) → Option (Voice × List (ℚ × ℚ))
  | v, [] => some (v, [])
  | v, b :: rest =>
    let pos := posIndex v.position
    let weight := v.position - (pos : ℚ)
    let inverse_weight := 1 - weight
    match samples[pos]?, samples[pos + 1]? with
    | some frame, some next_frame =>
      let new_frame := Frame.add (Frame.mul frame inverse_weight)
        (Frame.mul next_frame weight)
      let env := Envelope.value v.env
      let b' := (b.1 + amp * env * new_frame.left,
                 b.2 + amp * env * new_frame.right)
      let v' := { v with position := v.position + v.pitch_ratio }
      if lastIdx samples ≤ v'.position then
        some ({ v' with state := VoiceState.Free, position := offset },
          b' :: rest)
      else
        match voiceLoop samples amp offset v' rest with
        | some (v'', rest') => some (v'', b' :: rest')
        | none => none
    | _, _ => none

/-- One voice's render pass (sampler.rs lines 236-262): a voice whose
envelope is at rest is retired (Free, cursor reset to the offset value);
a non-Busy voice is skipped; a Busy voice runs the inner loop. -/
def renderVoice (samples : List Frame) (amp offset : ℚ) (v : Voice)
    (buf : List (ℚ × ℚ)) : Option (Voice × List (ℚ × ℚ)) :=
  let v1 := if v.env.state = EnvelopeState.Init then
    { v with state := VoiceState.Free, position := offset } else v
  if v1.state = VoiceState.Busy then voiceLoop samples amp offset v1 buf
  else some (v1, buf)

/-- The voice fold of `render`: each voice accumulates into the buffer
produced by the previous voices. -/
def renderVoices (samples : List Frame) (amp offset : ℚ) :
    List Voice → List (ℚ × ℚ) → Option (List Voice × List (ℚ × ℚ))
  | [], buf => some ([], buf)
  | v :: vs, buf =>
    match renderVoice samples amp offset v buf with
    | none => none
    | some (v', buf') =>
      match renderVoices samples amp offset vs buf' with
      | none => none
      | some (vs', buf'') => some (v' :: vs', buf'')

/-- `render` (sampler.rs lines 232-264): gain and offset are read once,
then every voice is processed against the accumulating stereo buffer.
`none` models a panic inside the render path. -/
def render (pow10 : ℚ → ℚ) (s : Sampler) (buffer : List (ℚ × ℚ)) :
    Option (Sampler × List (ℚ × ℚ)) :=
  let amp := gain_factor pow10 (get_param s SamplerParam.Amp)
  let offset := get_param s SamplerParam.Offset
  match renderVoices s.samples amp offset s.voices buffer with
  | none => none
  | some (vs, buf) => some ({ s with voices := vs }, buf)

/-- Number of Busy voices in a pool. -/
def countBusy (l : List Voice) : ℕ :=
  (l.filter fun v => decide (v.state = VoiceState.Busy)).length

/-- `x` sits at index `j` of `l`, satisfies `p`, and every earlier
element fails `p`: this characterises the element that
`iter_mut().find(p)` returns. -/
def FirstIdx {α : Type} (p : α → Bool) (l : List α) (j : ℕ) (x : α) : Prop :=
  l[j]? = some x ∧ p x = true ∧ ((l.take j).all fun y => !(p y)) = true

/-- The per-voice bounds of the invariant: cursor in `[0, N-1)` and a
nonnegative advance rate. -/
def VGood (L : ℚ) (v : Voice) : Prop :=
  0 ≤ v.position ∧ v.position < L ∧ 0 ≤ v.pitch_ratio

/-- The engine invariant: at least two frames, a nonnegative native
rate, the current Offset parameter value inside `[0, N-1)`, and every
voice's cursor inside `[0, N-1)` with a nonnegative pitch ratio. -/
def Inv (s : Sampler) : Prop :=
  2 ≤ s.samples.length ∧ 0 ≤ s.sample_rate ∧
  0 ≤ get_param s SamplerParam.Offset ∧
  get_param s SamplerParam.Offset < lastIdx s.samples ∧
  ∀ v ∈ s.voices, VGood (lastIdx s.samples) v

/-- One observable step of the engine, exactly the trait operations the
host may call (`send_event`, `set_param`, a successful `render`), plus
the external envelope reaching its rest state on some voice (modelled
from the spec: the envelope generator's timing is an external
collaborator that eventually signals completion). -/
inductive Step (powf2 pow10 : ℚ → ℚ) : Sampler → Sampler → Prop where
  | event (s : Sampler) (c : ℕ) (e : Event) :
      Step powf2 pow10 s (send_event powf2 s c e)
  | setParam (s : Sampler) (k : ParamKey) (value : ℚ) (s' : Sampler)
      (h : set_param s k value = Except.ok s') : Step powf2 pow10 s s'
  | renderStep (s : Sampler) (buffer : List (ℚ × ℚ)) (s' : Sampler)
      (out : List (ℚ × ℚ)) (h : render pow10 s buffer = some (s', out)) :
      Step powf2 pow10 s s'
  | envRest (s : Sampler) (j : ℕ) (v : Voice) (h : s.voices[j]? = some v) :
      Step powf2 pow10 s { s with voices := (s.voices.set j
        { v with env := { v.env with state := EnvelopeState.Init } }) }

/-- `Step` with the Offset writes restricted to the legal range
`[0, N-1)`: the host side condition under which the cursor invariant is
preserved. -/
inductive StepOK (powf2 pow10 : ℚ → ℚ) : Sampler → Sampler → Prop where
  | event (s : Sampler) (c : ℕ) (e : Event) :
      StepOK powf2 pow10 s (send_event powf2 s c e)
  | setParam (s : Sampler) (k : ParamKey) (value : ℚ) (s' : Sampler)
      (h : set_param s k value = Except.ok s')
      (hoff : k = ParamKey.Sampler SamplerParam.Offset →
        0 ≤ value ∧ value < lastIdx s.samples) : StepOK powf2 pow10 s s'
  | renderStep (s : Sampler) (buffer : List (ℚ × ℚ)) (s' : Sampler)
      (out : List (ℚ × ℚ)) (h : render pow10 s buffer = some (s', out)) :
      StepOK powf2 pow10 s s'
  | envRest (s : Sampler) (j : ℕ) (v : Voice) (h : s.voices[j]? = some v) :
      StepOK powf2 pow10 s { s with voices := (s.voices.set j
        { v with env := { v.env with state := EnvelopeState.Init } }) }


/-- A four-frame demo store: silent frame, onset frame, two silent
frames; its detected start offset is 1 and its last valid cursor bound
`N - 1` is 3. -/
def demoSamples : List Frame := [⟨0, 0⟩, ⟨1, 1⟩, ⟨0, 0⟩, ⟨0, 0⟩]

/-- The engine constructed over the demo store at native rate 44100. -/
def demoSampler : Sampler := mkSampler 44100 demoSamples

/-- Unwrap an always-`Ok` `set_param` result. -/
def okState (e : Except String Sampler) (d : Sampler) : Sampler :=
  match e with
  | Except.ok s => s
  | Except.error _ => d

/-- Unwrap a successful `render` result. -/
def someState (o : Option (Sampler × List (ℚ × ℚ))) (d : Sampler) : Sampler :=
  match o with
  | some (s, _) => s
  | none => d

/-- `demoSampler` after `set_param Offset 10` (a host write past the end
of the frame store; `set_param` does not clamp it). -/
def s4a : Sampler :=
  okState (set_param demoSampler (ParamKey.Sampler SamplerParam.Offset) 10)
    demoSampler

/-- `s4a` after one `render` call: every voice's envelope is at rest, so
every cursor is reset to the out-of-range offset 10. -/
def s4b : Sampler := someState (render (fun q => q) s4a []) s4a

/-- `s4b` after `NoteOn`: voice 0 becomes Busy with cursor 10 ≥ N - 1. -/
def s4c : Sampler := send_event (fun _ => 1) s4b 0 (Event.NoteOn 48)

/-- The voice that `s4c` holds in slot 0. -/
def v4c : Voice :=
  { position := 10, state := VoiceState.Busy, pitch_ratio := 1, pitch := 48
    column := 0
    env := { attack := 1/200, decay := 1/4, sustain := 0, release := 0
             level := 0, state := EnvelopeState.Attack } }

/-- A Busy voice whose cursor already points past the last frame. -/
def vPast : Voice :=
  { position := 10, state := VoiceState.Busy, pitch_ratio := 1, pitch := 48
    column := 0
    env := { attack := 0, decay := 0, sustain := 0, release := 0, level := 1
             state := EnvelopeState.Attack } }

/-- A two-frame engine state holding `vPast`: `render` indexes out of
bounds on it. -/
def sPast : Sampler :=
  { voices := [vPast], samples := [⟨0, 0⟩, ⟨0, 0⟩], sample_rate := 44100
    params := demoSampler.params }

/-- A Busy voice at cursor 0 with pitch ratio 5 over a two-frame store:
one render slot pushes its cursor past `N - 1 = 1`. -/
def v8 : Voice :=
  { position := 0, state := VoiceState.Busy, pitch_ratio := 5, pitch := 48
    column := 0
    env := { attack := 0, decay := 0, sustain := 0, release := 0, level := 1
             state := EnvelopeState.Attack } }

/-- `v8` after retirement at offset 1/2. -/
def v8r : Voice := { v8 with state := VoiceState.Free, position := 1/2 }

/-- A fresh voice marked Busy (for pool-exhaustion scenarios). -/
def vB : Voice := { Voice.new with state := VoiceState.Busy }

/-- An engine whose eight voices are all Busy: the pool is exhausted. -/
def sFull : Sampler := { demoSampler with voices := List.replicate 8 vB }

/-- A Busy voice owned by column 3 (for the voice-stealing scenario). -/
def v7a : Voice :=
  { position := 1, state := VoiceState.Busy, pitch_ratio := 1, pitch := 50
    column := 3
    env := { attack := 0, decay := 0, sustain := 0, release := 0, level := 1
             state := EnvelopeState.Attack } }

/-- A two-voice engine: slot 0 Busy on column 3, slot 1 Free. -/
def s7 : Sampler :=
  { voices := [v7a, Voice.new], samples := demoSamples, sample_rate := 44100
    params := demoSampler.params }


theorem modifyFirst_length {α : Type} (p : α → Bool) (f : α → α)
    (l : List α) : (modifyFirst p f l).length = l.length := by
  induction l with
  | nil => rfl
  | cons x xs ih =>
    simp only [modifyFirst]
    by_cases h : p x <;> simp [h, ih]

theorem modifyFirst_of_all_neg {α : Type} {p : α → Bool} (f : α → α)
    {l : List α} (h : ∀ x ∈ l, p x = false) : modifyFirst p f l = l := by
  induction l with
  | nil => rfl
  | cons x xs ih =>
    simp only [modifyFirst, h x (List.mem_cons_self x xs)]
    simp only [Bool.false_eq_true, if_false, List.cons.injEq, true_and]
    exact ih fun y hy => h y (List.mem_cons_of_mem x hy)

theorem modifyFirst_of_first {α : Type} {p : α → Bool} (f : α → α)
    {l : List α} {j : ℕ} {x : α} (h : FirstIdx p l j x) :
    modifyFirst p f l = l.set j (f x) := by
  obtain ⟨hget, hpx, hall⟩ := h
  induction l generalizing j with
  | nil => simp at hget
  | cons a t ih =>
    cases j with
    | zero =>
      simp only [List.getElem?_cons_zero, Option.some.injEq] at hget
      subst hget
      simp [modifyFirst, hpx]
    | succ j' =>
      have ha : p a = false := by
        simp only [List.take_succ_cons, List.all_cons, Bool.and_eq_true,
          Bool.not_eq_true'] at hall
        exact hall.1
      have hall' : ((t.take j').all fun y => !(p y)) = true := by
        simp only [List.take_succ_cons, List.all_cons, Bool.and_eq_true] at hall
        exact hall.2
      have hget' : t[j']? = some x := by
        simpa using hget
      simp only [modifyFirst, ha, Bool.false_eq_true, if_false,
        List.set_cons_succ, List.cons.injEq, true_and]
      exact ih hget' hall'

theorem modifyFirst_forall {α : Type} {p : α → Bool} {f : α → α}
    {P : α → Prop} {l : List α} (h : ∀ y ∈ l, P y)
    (hf : ∀ y ∈ l, P y → P (f y)) : ∀ x ∈ modifyFirst p f l, P x := by
  induction l with
  | nil => intro x hx; simp [modifyFirst] at hx
  | cons a t ih =>
    intro x hx
    simp only [modifyFirst] at hx
    by_cases hp : p a = true
    · rw [if_pos hp] at hx
      cases List.mem_cons.mp hx with
      | inl he =>
        subst he
        exact hf a (List.mem_cons_self a t) (h a (List.mem_cons_self a t))
      | inr hm => exact h x (List.mem_cons_of_mem a hm)
    · rw [if_neg hp] at hx
      cases List.mem_cons.mp hx with
      | inl he =>
        subst he
        exact h x (List.mem_cons_self x t)
      | inr hm =>
        exact ih (fun y hy => h y (List.mem_cons_of_mem a hy))
          (fun y hy => hf y (List.mem_cons_of_mem a hy)) x hm

theorem modifyFirst_idem {α : Type} {p : α → Bool} {f : α → α}
    (hpred : ∀ x, p (f x) = p x) (hf : ∀ x, f (f x) = f x) (l : List α) :
    modifyFirst p f (modifyFirst p f l) = modifyFirst p f l := by
  induction l with
  | nil => rfl
  | cons a t ih =>
    simp only [modifyFirst]
    by_cases hp : p a
    · simp [modifyFirst, hp, hpred, hf]
    · simp [modifyFirst, hp, ih]

theorem firstIdx_ne {α : Type} {p : α → Bool} {l : List α} {i j : ℕ}
    {x y : α} (hi : FirstIdx p l i x) (hj : l[j]? = some y)
    (hpx : p x = true) (hpy : p y = false) : i ≠ j := by
  intro h
  subst h
  rw [hi.1] at hj
  cases hj
  rw [hpx] at hpy
  cases hpy

theorem firstIdx_earlier {α : Type} {p : α → Bool} {l : List α} {j : ℕ}
    {x : α} (h : FirstIdx p l j x) {k : ℕ} {y : α} (hk : k < j)
    (hy : l[k]? = some y) : p y = false := by
  have hmem : y ∈ l.take j :=
    List.getElem?_mem (by rw [List.getElem?_take_of_lt hk]; exact hy)
  have := (List.all_eq_true.mp h.2.2) y hmem
  simpa using this

theorem firstIdx_of_earlier {α : Type} {p : α → Bool} {l : List α} {j : ℕ}
    {x : α} (hget : l[j]? = some x) (hpx : p x = true)
    (hlt : ∀ k, k < j → ∀ y, l[k]? = some y → p y = false) :
    FirstIdx p l j x := by
  refine ⟨hget, hpx, List.all_eq_true.mpr ?_⟩
  intro y hy
  rw [List.mem_iff_getElem?] at hy
  obtain ⟨k, hk⟩ := hy
  have hklt : k < j := by
    have h1 : k < (l.take j).length := (List.getElem?_eq_some_iff.mp hk).1
    have h2 : (l.take j).length ≤ j := by
      simp [List.length_take]
    omega
  rw [List.getElem?_take_of_lt hklt] at hk
  simp [hlt k hklt y hk]

theorem firstIdx_set_of_false {α : Type} {q : α → Bool} {l : List α}
    {i j : ℕ} {x xj b : α} (h : FirstIdx q l i x) (hb : l[j]? = some xj)
    (hq1 : q xj = false) (hq2 : q b = false) :
    FirstIdx q (l.set j b) i x := by
  have hij : i ≠ j := firstIdx_ne h hb h.2.1 hq1
  have hjlen : j < l.length := (List.getElem?_eq_some_iff.mp hb).1
  refine firstIdx_of_earlier ?_ h.2.1 ?_
  · rw [List.getElem?_set_ne (Ne.symm hij)]
    exact h.1
  · intro k hk y hy
    by_cases hkj : k = j
    · subst hkj
      rw [List.getElem?_set_self hjlen] at hy
      cases hy
      exact hq2
    · rw [List.getElem?_set_ne (Ne.symm hkj)] at hy
      exact firstIdx_earlier h hk hy

theorem posIndex_add_one_lt {samples : List Frame}
    (hN : 2 ≤ samples.length) {q : ℚ} (hq : q < lastIdx samples) :
    posIndex q + 1 < samples.length := by
  have h1 : ⌊q⌋ < ((samples.length - 1 : ℕ) : ℤ) := by
    rw [Int.floor_lt]
    rw [lastIdx] at hq
    exact_mod_cast hq
  have h2 : posIndex q = ⌊q⌋.toNat := rfl
  omega

theorem voiceLoop_total (samples : List Frame) (amp offset : ℚ)
    (hN : 2 ≤ samples.length) :
    ∀ (buf : List (ℚ × ℚ)) (v : Voice), v.position < lastIdx samples →
      ∃ v' buf', voiceLoop samples amp offset v buf = some (v', buf') := by
  intro buf
  induction buf with
  | nil => intro v _; exact ⟨v, [], rfl⟩
  | cons b rest ih =>
    intro v hv
    have hlt : posIndex v.position + 1 < samples.length :=
      posIndex_add_one_lt hN hv
    obtain ⟨f0, h0⟩ : ∃ x, samples[posIndex v.position]? = some x :=
      ⟨_, List.getElem?_eq_getElem (by omega)⟩
    obtain ⟨f1, h1⟩ : ∃ x, samples[posIndex v.position + 1]? = some x :=
      ⟨_, List.getElem?_eq_getElem hlt⟩
    rw [voiceLoop, h0, h1]
    simp only
    by_cases hr : lastIdx samples ≤ v.position + v.pitch_ratio
    · rw [if_pos hr]
      exact ⟨_, _, rfl⟩
    · rw [if_neg hr]
      obtain ⟨v', rest', hrec⟩ :=
        ih { v with position := v.position + v.pitch_ratio }
          (by simpa using lt_of_not_le hr)
      rw [hrec]
      exact ⟨_, _, rfl⟩

theorem voiceLoop_inv (samples : List Frame) (amp offset : ℚ)
    (hN : 2 ≤ samples.length) (hoff0 : 0 ≤ offset)
    (hoff1 : offset < lastIdx samples) :
    ∀ (buf : List (ℚ × ℚ)) (v : Voice), 0 ≤ v.position →
      v.position < lastIdx samples → 0 ≤ v.pitch_ratio →
      ∃ v' buf', voiceLoop samples amp offset v buf = some (v', buf') ∧
        0 ≤ v'.position ∧ v'.position < lastIdx samples ∧
        v'.pitch_ratio = v.pitch_ratio := by
  intro buf
  induction buf with
  | nil => intro v h0 h1 h2; exact ⟨v, [], rfl, h0, h1, rfl⟩
  | cons b rest ih =>
    intro v hp0 hp1 hr0
    have hlt : posIndex v.position + 1 < samples.length :=
      posIndex_add_one_lt hN hp1
    obtain ⟨f0, h0⟩ : ∃ x, samples[posIndex v.position]? = some x :=
      ⟨_, List.getElem?_eq_getElem (by omega)⟩
    obtain ⟨f1, h1⟩ : ∃ x, samples[posIndex v.position + 1]? = some x :=
      ⟨_, List.getElem?_eq_getElem hlt⟩
    rw [voiceLoop, h0, h1]
    simp only
    by_cases hr : lastIdx samples ≤ v.position + v.pitch_ratio
    · rw [if_pos hr]
      exact ⟨_, _, rfl, hoff0, hoff1, rfl⟩
    · rw [if_neg hr]
      obtain ⟨v', rest', hrec, hq0, hq1, hq2⟩ :=
        ih { v with position := v.position + v.pitch_ratio }
          (by simpa using add_nonneg hp0 hr0)
          (by simpa using lt_of_not_le hr)
          (by simpa using hr0)
      rw [hrec]
      exact ⟨_, _, rfl, hq0, hq1, by simpa using hq2⟩

theorem voiceLoop_retire (samples : List Frame) (amp offset : ℚ) :
    ∀ (buf : List (ℚ × ℚ)) (v v' : Voice) (buf' : List (ℚ × ℚ)),
      v.state = VoiceState.Busy →
      voiceLoop samples amp offset v buf = some (v', buf') →
      (v'.state = VoiceState.Free → v'.position = offset ∧
        ∃ k, k < buf.length ∧ buf'.drop (k + 1) = buf.drop (k + 1)) ∧
      (buf ≠ [] → v'.state = VoiceState.Busy →
        v'.position < lastIdx samples) := by
  intro buf
  induction buf with
  | nil =>
    intro v v' buf' hbusy h
    rw [voiceLoop] at h
    cases h
    refine ⟨fun hfree => ?_, fun hne _ => absurd rfl hne⟩
    rw [hbusy] at hfree
    cases hfree
  | cons b rest ih =>
    intro v v' buf' hbusy h
    rw [voiceLoop] at h
    simp only at h
    match h0 : samples[posIndex v.position]?,
        h1 : samples[posIndex v.position + 1]? with
    | some frame, some next_frame =>
      rw [h0, h1] at h
      simp only at h
      by_cases hr : lastIdx samples ≤ v.position + v.pitch_ratio
      · rw [if_pos hr] at h
        simp only [Option.some.injEq, Prod.mk.injEq] at h
        obtain ⟨hv', hbuf'⟩ := h
        constructor
        · intro _
          refine ⟨by rw [← hv'], 0, by simp, ?_⟩
          rw [← hbuf']
          simp
        · intro _ hb
          rw [← hv'] at hb
          cases hb
      · rw [if_neg hr] at h
        match hrec : voiceLoop samples amp offset
            { v with position := v.position + v.pitch_ratio } rest with
        | some (v'', rest') =>
          rw [hrec] at h
          simp only [Option.some.injEq, Prod.mk.injEq] at h
          obtain ⟨hv', hbuf'⟩ := h
          subst hv'
          have := ih { v with position := v.position + v.pitch_ratio }
            v'' rest' hbusy hrec
          constructor
          · intro hfree
            obtain ⟨hpos, k, hk, hdrop⟩ := this.1 hfree
            refine ⟨hpos, k + 1, by simp; omega, ?_⟩
            rw [← hbuf']
            simpa using hdrop
          · intro _ hb
            rcases rest with _ | ⟨r, rs⟩
            · rw [voiceLoop] at hrec
              cases hrec
              simpa using lt_of_not_le hr
            · exact this.2 (by simp) hb
        | none =>
          rw [hrec] at h
          cases h
    | none, _ =>
      rw [h0] at h
      cases h
    | some _, none =>
      rw [h0, h1] at h
      cases h

theorem renderVoice_total (samples : List Frame) (amp offset : ℚ)
    (hN : 2 ≤ samples.length) (v : Voice) (buf : List (ℚ × ℚ))
    (hv : v.state = VoiceState.Busy → v.position < lastIdx samples) :
    ∃ v' buf', renderVoice samples amp offset v buf = some (v', buf') := by
  by_cases he : v.env.state = EnvelopeState.Init
  · have heq : renderVoice samples amp offset v buf =
        some ({ v with state := VoiceState.Free, position := offset }, buf) := by
      simp [renderVoice, he]
    exact ⟨_, _, heq⟩
  · by_cases hb : v.state = VoiceState.Busy
    · have heq : renderVoice samples amp offset v buf =
          voiceLoop samples amp offset v buf := by
        simp [renderVoice, he, hb]
      rw [heq]
      exact voiceLoop_total samples amp offset hN buf v (hv hb)
    · have heq : renderVoice samples amp offset v buf = some (v, buf) := by
        simp [renderVoice, he, hb]
      exact ⟨_, _, heq⟩

theorem renderVoice_inv (samples : List Frame) (amp offset : ℚ)
    (hN : 2 ≤ samples.length) (hoff0 : 0 ≤ offset)
    (hoff1 : offset < lastIdx samples) (v : Voice) (buf : List (ℚ × ℚ))
    (hp0 : 0 ≤ v.position) (hp1 : v.position < lastIdx samples)
    (hr0 : 0 ≤ v.pitch_ratio) :
    ∃ v' buf', renderVoice samples amp offset v buf = some (v', buf') ∧
      0 ≤ v'.position ∧ v'.position < lastIdx samples ∧
      0 ≤ v'.pitch_ratio := by
  by_cases he : v.env.state = EnvelopeState.Init
  · have heq : renderVoice samples amp offset v buf =
        some ({ v with state := VoiceState.Free, position := offset }, buf) := by
      simp [renderVoice, he]
    exact ⟨_, _, heq, by simpa using hoff0, by simpa using hoff1,
      by simpa using hr0⟩
  · by_cases hb : v.state = VoiceState.Busy
    · have heq : renderVoice samples amp offset v buf =
          voiceLoop samples amp offset v buf := by
        simp [renderVoice, he, hb]
      obtain ⟨v', buf', h, h0, h1, h2⟩ :=
        voiceLoop_inv samples amp offset hN hoff0 hoff1 buf v hp0 hp1 hr0
      exact ⟨v', buf', heq.trans h, h0, h1, h2 ▸ hr0⟩
    · have heq : renderVoice samples amp offset v buf = some (v, buf) := by
        simp [renderVoice, he, hb]
      exact ⟨_, _, heq, hp0, hp1, hr0⟩

theorem renderVoices_total (samples : List Frame) (amp offset : ℚ)
    (hN : 2 ≤ samples.length) :
    ∀ (vs : List Voice) (buf : List (ℚ × ℚ)),
      (∀ v ∈ vs, v.state = VoiceState.Busy → v.position < lastIdx samples) →
      ∃ vs' buf', renderVoices samples amp offset vs buf =
        some (vs', buf') := by
  intro vs
  induction vs with
  | nil => intro buf _; exact ⟨[], buf, rfl⟩
  | cons v t ih =>
    intro buf hall
    obtain ⟨v', buf', h1⟩ := renderVoice_total samples amp offset hN v buf
      (hall v (List.mem_cons_self v t))
    obtain ⟨vs', buf'', h2⟩ := ih buf'
      (fun y hy => hall y (List.mem_cons_of_mem v hy))
    refine ⟨v' :: vs', buf'', ?_⟩
    simp [renderVoices, h1, h2]

theorem renderVoices_inv (samples : List Frame) (amp offset : ℚ)
    (hN : 2 ≤ samples.length) (hoff0 : 0 ≤ offset)
    (hoff1 : offset < lastIdx samples) :
    ∀ (vs : List Voice) (buf : List (ℚ × ℚ)),
      (∀ v ∈ vs, 0 ≤ v.position ∧ v.position < lastIdx samples ∧
        0 ≤ v.pitch_ratio) →
      ∃ vs' buf', renderVoices samples amp offset vs buf =
        some (vs', buf') ∧
        ∀ v ∈ vs', 0 ≤ v.position ∧ v.position < lastIdx samples ∧
          0 ≤ v.pitch_ratio := by
  intro vs
  induction vs with
  | nil => intro buf _; exact ⟨[], buf, rfl, by simp⟩
  | cons v t ih =>
    intro buf hall
    obtain ⟨hp0, hp1, hr0⟩ := hall v (List.mem_cons_self v t)
    obtain ⟨v', buf', h1, hq0, hq1, hq2⟩ :=
      renderVoice_inv samples amp offset hN hoff0 hoff1 v buf hp0 hp1 hr0
    obtain ⟨vs', buf'', h2, hall'⟩ := ih buf'
      (fun y hy => hall y (List.mem_cons_of_mem v hy))
    refine ⟨v' :: vs', buf'', ?_, ?_⟩
    · simp [renderVoices, h1, h2]
    · intro y hy
      cases List.mem_cons.mp hy with
      | inl he => subst he; exact ⟨hq0, hq1, hq2⟩
      | inr hm => exact hall' y hm

theorem renderVoices_length (samples : List Frame) (amp offset : ℚ) :
    ∀ (vs : List Voice) (buf : List (ℚ × ℚ)) vs' buf',
      renderVoices samples amp offset vs buf = some (vs', buf') →
      vs'.length = vs.length := by
  intro vs
  induction vs with
  | nil =>
    intro buf vs' buf' h
    rw [renderVoices] at h
    cases h
    rfl
  | cons v t ih =>
    intro buf vs' buf' h
    rw [renderVoices] at h
    match h1 : renderVoice samples amp offset v buf with
    | none => rw [h1] at h; cases h
    | some (v1, buf1) =>
      rw [h1] at h
      simp only at h
      match h2 : renderVoices samples amp offset t buf1 with
      | none => rw [h2] at h; cases h
      | some (vs1, buf2) =>
        rw [h2] at h
        simp only [Option.some.injEq, Prod.mk.injEq] at h
        obtain ⟨hv, _⟩ := h
        rw [← hv]
        simp [ih buf1 vs1 buf2 h2]

theorem render_eq_some (pow10 : ℚ → ℚ) (s : Sampler)
    (buffer : List (ℚ × ℚ)) (s' : Sampler) (out : List (ℚ × ℚ))
    (h : render pow10 s buffer = some (s', out)) :
    ∃ vs', renderVoices s.samples
        (gain_factor pow10 (get_param s SamplerParam.Amp))
        (get_param s SamplerParam.Offset) s.voices buffer =
        some (vs', out) ∧ s' = { s with voices := vs' } := by
  rw [render] at h
  match h1 : renderVoices s.samples
      (gain_factor pow10 (get_param s SamplerParam.Amp))
      (get_param s SamplerParam.Offset) s.voices buffer with
  | none => rw [h1] at h; cases h
  | some (vs', buf') =>
    rw [h1] at h
    simp only [Option.some.injEq, Prod.mk.injEq] at h
    exact ⟨vs', by rw [h.2], (h.1).symm⟩

theorem render_total (pow10 : ℚ → ℚ) (s : Sampler)
    (buffer : List (ℚ × ℚ)) (hN : 2 ≤ s.samples.length)
    (hv : ∀ v ∈ s.voices, v.state = VoiceState.Busy →
      v.position < lastIdx s.samples) :
    ∃ s' out, render pow10 s buffer = some (s', out) := by
  obtain ⟨vs', buf', h⟩ := renderVoices_total s.samples
    (gain_factor pow10 (get_param s SamplerParam.Amp))
    (get_param s SamplerParam.Offset) hN s.voices buffer hv
  refine ⟨{ s with voices := vs' }, buf', ?_⟩
  rw [render, h]

theorem Params.get_set_self (ps : Params) (k : SamplerParam) (v : ℚ) :
    (ps.set k v).get k = { ps.get k with val := v } := by
  cases k <;> rfl

theorem Params.get_set_ne (ps : Params) (k k2 : SamplerParam) (v : ℚ)
    (h : k2 ≠ k) : (ps.set k v).get k2 = ps.get k2 := by
  cases k <;> cases k2 <;> first
    | rfl
    | exact absurd rfl h

theorem inv_note_off (s : Sampler) (c : ℕ) (p : ℤ) (hInv : Inv s) :
    Inv (note_off s c p) := by
  obtain ⟨h1, h2, h3, h4, h5⟩ := hInv
  refine ⟨h1, h2, h3, h4, ?_⟩
  exact modifyFirst_forall h5 fun y _ hy => ⟨hy.1, hy.2.1, hy.2.2⟩

theorem inv_stop_note (s : Sampler) (c : ℕ) (hInv : Inv s) :
    Inv (stop_note s c) := by
  obtain ⟨h1, h2, h3, h4, h5⟩ := hInv
  refine ⟨h1, h2, h3, h4, ?_⟩
  exact modifyFirst_forall h5 fun y _ hy => ⟨hy.1, hy.2.1, hy.2.2⟩

theorem inv_note_on (powf2 : ℚ → ℚ) (hp : ∀ q, 0 < powf2 q) (s : Sampler)
    (c : ℕ) (p : ℤ) (hInv : Inv s) : Inv (note_on powf2 s c p) := by
  obtain ⟨h1, h2, h3, h4, h5⟩ := hInv
  refine ⟨h1, h2, h3, h4, ?_⟩
  refine modifyFirst_forall h5 fun y _ hy => ⟨hy.1, hy.2.1, ?_⟩
  have : (0:ℚ) ≤ s.sample_rate / SAMPLE_RATE :=
    div_nonneg h2 (by norm_num [SAMPLE_RATE])
  exact mul_nonneg (le_of_lt (hp _)) this

theorem inv_send_event (powf2 : ℚ → ℚ) (hp : ∀ q, 0 < powf2 q)
    (s : Sampler) (c : ℕ) (e : Event) (hInv : Inv s) :
    Inv (send_event powf2 s c e) := by
  cases e with
  | NoteOn p => exact inv_note_on powf2 hp _ c p (inv_stop_note s c hInv)
  | NoteOff p => exact inv_note_off s c p hInv
  | Empty => exact hInv

theorem inv_set_param (s : Sampler) (k : ParamKey) (value : ℚ)
    (s' : Sampler) (h : set_param s k value = Except.ok s')
    (hoff : k = ParamKey.Sampler SamplerParam.Offset →
      0 ≤ value ∧ value < lastIdx s.samples) (hInv : Inv s) : Inv s' := by
  obtain ⟨h1, h2, h3, h4, h5⟩ := hInv
  cases k with
  | Other =>
    rw [set_param] at h
    cases h
    exact ⟨h1, h2, h3, h4, h5⟩
  | Sampler key =>
    rw [set_param] at h
    cases h
    by_cases hk : key = SamplerParam.Offset
    · subst hk
      obtain ⟨hv0, hv1⟩ := hoff rfl
      refine ⟨h1, h2, ?_, ?_, h5⟩
      · show 0 ≤ ((s.params.set SamplerParam.Offset value).get
          SamplerParam.Offset).val
        rw [Params.get_set_self]
        exact hv0
      · show ((s.params.set SamplerParam.Offset value).get
          SamplerParam.Offset).val < lastIdx s.samples
        rw [Params.get_set_self]
        exact hv1
    · refine ⟨h1, h2, ?_, ?_, h5⟩
      · show 0 ≤ ((s.params.set key value).get SamplerParam.Offset).val
        rw [Params.get_set_ne s.params key SamplerParam.Offset value
          (fun he => hk he.symm)]
        exact h3
      · show ((s.params.set key value).get SamplerParam.Offset).val <
          lastIdx s.samples
        rw [Params.get_set_ne s.params key SamplerParam.Offset value
          (fun he => hk he.symm)]
        exact h4

theorem inv_render (pow10 : ℚ → ℚ) (s : Sampler) (buffer : List (ℚ × ℚ))
    (s' : Sampler) (out : List (ℚ × ℚ))
    (h : render pow10 s buffer = some (s', out)) (hInv : Inv s) :
    Inv s' := by
  obtain ⟨h1, h2, h3, h4, h5⟩ := hInv
  obtain ⟨vs', hq, hs'⟩ := render_eq_some pow10 s buffer s' out h
  obtain ⟨vs'', buf'', hq', hall⟩ := renderVoices_inv s.samples
    (gain_factor pow10 (get_param s SamplerParam.Amp))
    (get_param s SamplerParam.Offset) h1 h3 h4 s.voices buffer h5
  rw [hq] at hq'
  simp only [Option.some.injEq, Prod.mk.injEq] at hq'
  obtain ⟨hv, _⟩ := hq'
  subst hs'
  subst hv
  exact ⟨h1, h2, h3, h4, hall⟩

theorem inv_envRest (s : Sampler) (j : ℕ) (v : Voice)
    (h : s.voices[j]? = some v) (hInv : Inv s) :
    Inv { s with voices := (s.voices.set j
      { v with env := { v.env with state := EnvelopeState.Init } }) } := by
  obtain ⟨h1, h2, h3, h4, h5⟩ := hInv
  refine ⟨h1, h2, h3, h4, ?_⟩
  intro y hy
  cases List.mem_or_eq_of_mem_set hy with
  | inl hm => exact h5 y hm
  | inr he =>
    subst he
    have := h5 v (List.getElem?_mem h)
    exact ⟨this.1, this.2.1, this.2.2⟩

theorem inv_stepOK (powf2 pow10 : ℚ → ℚ) (hp : ∀ q, 0 < powf2 q)
    (s s' : Sampler) (h : StepOK powf2 pow10 s s') (hInv : Inv s) :
    Inv s' := by
  cases h with
  | event c e => exact inv_send_event powf2 hp s c e hInv
  | setParam k value t hset hoff =>
    exact inv_set_param s k value s' hset hoff hInv
  | renderStep buffer t out hr => exact inv_render pow10 s buffer s' out hr hInv
  | envRest j v hj => exact inv_envRest s j v hj hInv

theorem inv_mkSampler (rate : ℚ) (samples : List Frame)
    (hN : 2 ≤ samples.length) (hrate : 0 ≤ rate)
    (hoff : ((findOffset samples : ℕ) : ℚ) < lastIdx samples) :
    Inv (mkSampler rate samples) := by
  refine ⟨hN, hrate, ?_, ?_, ?_⟩
  · show (0:ℚ) ≤ ((findOffset samples : ℕ) : ℚ)
    exact_mod_cast Nat.zero_le _
  · exact hoff
  · intro v hv
    have := List.eq_of_mem_replicate hv
    subst this
    refine ⟨le_refl 0, ?_, le_refl 0⟩
    show (0:ℚ) < lastIdx samples
    rw [lastIdx]
    have : 1 ≤ samples.length - 1 := by omega
    exact_mod_cast Nat.lt_of_lt_of_le Nat.zero_lt_one this

theorem inv_reachOK (powf2 pow10 : ℚ → ℚ) (hp : ∀ q, 0 < powf2 q)
    (s s' : Sampler) (h : Relation.ReflTransGen (StepOK powf2 pow10) s s')
    (hInv : Inv s) : Inv s' := by
  induction h with
  | refl => exact hInv
  | tail _ hstep ih => exact inv_stepOK powf2 pow10 hp _ _ hstep ih

theorem step_voices_length (powf2 pow10 : ℚ → ℚ) (s s' : Sampler)
    (h : Step powf2 pow10 s s') : s'.voices.length = s.voices.length := by
  cases h with
  | event c e =>
    cases e with
    | NoteOn p =>
      show (note_on powf2 (stop_note s c) c p).voices.length = _
      rw [note_on]
      simp only
      rw [modifyFirst_length]
      show (stop_note s c).voices.length = _
      rw [stop_note]
      simp only
      rw [modifyFirst_length]
    | NoteOff p =>
      show (note_off s c p).voices.length = _
      rw [note_off]
      simp only
      rw [modifyFirst_length]
    | Empty => rfl
  | setParam k value t hset =>
    cases k with
    | Sampler key =>
      rw [set_param] at hset
      cases hset
      rfl
    | Other =>
      rw [set_param] at hset
      cases hset
      rfl
  | renderStep buffer t out hr =>
    obtain ⟨vs', hq, hs'⟩ := render_eq_some pow10 s buffer s' out hr
    subst hs'
    exact renderVoices_length s.samples _ _ s.voices buffer vs' out hq
  | envRest j v hj => simp

theorem reach_voices_length (powf2 pow10 : ℚ → ℚ) (s s' : Sampler)
    (h : Relation.ReflTransGen (Step powf2 pow10) s s') :
    s'.voices.length = s.voices.length := by
  induction h with
  | refl => rfl
  | tail _ hstep ih => rw [step_voices_length powf2 pow10 _ _ hstep, ih]

theorem note_off_idem (s : Sampler) (c : ℕ) (p : ℤ) :
    note_off (note_off s c p) c p = note_off s c p := by
  have h := modifyFirst_idem (p := noteMatch c p)
    (f := fun v => { v with env := Envelope.start_release v.env })
    (fun x => rfl) (fun x => rfl) s.voices
  show ({ s with voices := (modifyFirst (noteMatch c p)
      (fun v => { v with env := Envelope.start_release v.env })
      (modifyFirst (noteMatch c p)
        (fun v => { v with env := Envelope.start_release v.env })
        s.voices)) } : Sampler) =
    { s with voices := (modifyFirst (noteMatch c p)
      (fun v => { v with env := Envelope.start_release v.env }) s.voices) }
  rw [h]

theorem note_on_of_no_free (powf2 : ℚ → ℚ) (s : Sampler) (c : ℕ) (p : ℤ)
    (hv : ∀ v ∈ s.voices, v.state ≠ VoiceState.Free) :
    note_on powf2 s c p = s := by
  have h := modifyFirst_of_all_neg
    (p := isFree)
    (fun v => { v with
      env := Envelope.start_attack
        { v.env with attack := get_param s SamplerParam.Attack
                     decay := get_param s SamplerParam.Decay
                     sustain := get_param s SamplerParam.Sustain
                     release := get_param s SamplerParam.Release }
      state := VoiceState.Busy
      pitch := p
      column := c
      pitch_ratio :=
        powf2 (((p - ROOT_PITCH : ℤ) : ℚ) / 12)
          * (s.sample_rate / SAMPLE_RATE) })
    (l := s.voices) (fun x hx => by simp [isFree, hv x hx])
  show ({ s with voices := (modifyFirst isFree _ s.voices) } : Sampler) = s
  rw [h]

theorem stop_note_eq_set (s : Sampler) (c : ℕ) {j : ℕ} {vj : Voice}
    (hj : FirstIdx (colMatch c) s.voices j vj) :
    stop_note s c = { s with voices := (s.voices.set j
      { vj with env :=
        Envelope.start_release { vj.env with release := 1/200 } }) } := by
  show ({ s with voices := (modifyFirst (colMatch c)
      (fun v => { v with env :=
        Envelope.start_release { v.env with release := 1/200 } })
      s.voices) } : Sampler) = _
  rw [modifyFirst_of_first _ hj]

theorem note_on_eq_set (powf2 : ℚ → ℚ) (s : Sampler) (c : ℕ) (p : ℤ)
    {i : ℕ} {vi : Voice} (hi : FirstIdx isFree s.voices i vi) :
    note_on powf2 s c p = { s with voices := (s.voices.set i
      { vi with
        env := Envelope.start_attack
          { vi.env with attack := get_param s SamplerParam.Attack
                        decay := get_param s SamplerParam.Decay
                        sustain := get_param s SamplerParam.Sustain
                        release := get_param s SamplerParam.Release }
        state := VoiceState.Busy
        pitch := p
        column := c
        pitch_ratio :=
          powf2 (((p - ROOT_PITCH : ℤ) : ℚ) / 12)
            * (s.sample_rate / SAMPLE_RATE) }) } := by
  show ({ s with voices := (modifyFirst isFree _ s.voices) } : Sampler) = _
  rw [modifyFirst_of_first _ hi]

theorem findOffsetAux_all_zero (n : ℕ) :
    ∀ i, findOffsetAux i (List.replicate n (⟨0, 0⟩ : Frame)) = 0 := by
  induction n with
  | zero => intro i; rfl
  | succ m ih =>
    intro i
    rw [List.replicate_succ, findOffsetAux,
      if_pos (by constructor <;> norm_num [SILENCE])]
    exact ih (i + 1)

theorem findOffsetAux_spike (k n : ℕ) (x : ℚ) (hx : SILENCE ≤ x) :
    ∀ i, findOffsetAux i (List.replicate k (⟨0, 0⟩ : Frame) ++
      (⟨x, x⟩ : Frame) :: List.replicate n (⟨0, 0⟩ : Frame)) = i + k := by
  induction k with
  | zero =>
    intro i
    rw [List.replicate, List.nil_append, findOffsetAux,
      if_neg (fun hc => absurd hc.1 (not_lt.mpr hx))]
    omega
  | succ m ih =>
    intro i
    rw [List.replicate_succ, List.cons_append, findOffsetAux,
      if_pos (by constructor <;> norm_num [SILENCE])]
    rw [ih (i + 1)]
    omega


theorem voiceLoop_none_of_oob (samples : List Frame) (amp offset : ℚ)
    (v : Voice) (b : ℚ × ℚ) (rest : List (ℚ × ℚ))
    (h : samples.length ≤ posIndex v.position) :
    voiceLoop samples amp offset v (b :: rest) = none := by
  rw [voiceLoop, List.getElem?_eq_none h]

theorem renderVoice_none (samples : List Frame) (amp offset : ℚ) (v : Voice)
    (buf : List (ℚ × ℚ)) (hbusy : v.state = VoiceState.Busy)
    (henv : v.env.state ≠ EnvelopeState.Init)
    (h : voiceLoop samples amp offset v buf = none) :
    renderVoice samples amp offset v buf = none := by
  have heq : renderVoice samples amp offset v buf =
      voiceLoop samples amp offset v buf := by
    simp [renderVoice, henv, hbusy]
  rw [heq, h]

theorem renderVoices_none_head (samples : List Frame) (amp offset : ℚ)
    (v : Voice) (vs : List Voice) (buf : List (ℚ × ℚ))
    (h : renderVoice samples amp offset v buf = none) :
    renderVoices samples amp offset (v :: vs) buf = none := by
  rw [renderVoices, h]

theorem render_none (pow10 : ℚ → ℚ) (s : Sampler) (buffer : List (ℚ × ℚ))
    (h : renderVoices s.samples
      (gain_factor pow10 (get_param s SamplerParam.Amp))
      (get_param s SamplerParam.Offset) s.voices buffer = none) :
    render pow10 s buffer = none := by
  rw [render, h]


/-- C1 (amended): for every frame store of length at least 2, every
parameter state and every output buffer, a `render` call completes
totally (no index panic) provided every Busy voice's cursor is below
`N - 1`; the claim's unrestricted form, over every voice-pool and
parameter state, is refuted by `C1_counterexample`. -/
theorem C1_render_total_when_cursors_in_range (pow10 : ℚ → ℚ)
    (s : Sampler) (buffer : List (ℚ × ℚ)) (hN : 2 ≤ s.samples.length)
    (hv : ∀ v ∈ s.voices, v.state = VoiceState.Busy →
      v.position < lastIdx s.samples) :
    ∃ s' out, render pow10 s buffer = some (s', out) :=
  render_total pow10 s buffer hN hv

/-- C1 witness: the freshly constructed demo engine renders one slot
without a panic. -/
theorem C1_witness :
    (2 ≤ demoSampler.samples.length) ∧
    (∃ s' out, render (fun q => q) demoSampler [(0, 0)] = some (s', out)) :=
  ⟨by norm_num [demoSampler, mkSampler, demoSamples],
   C1_render_total_when_cursors_in_range (fun q => q) demoSampler [(0, 0)]
     (by norm_num [demoSampler, mkSampler, demoSamples])
     (fun v hv hb => by
       rw [List.eq_of_mem_replicate hv] at hb
       simp [Voice.new] at hb)⟩

/-- C1 counterexample: a frame store of length 2 (≥ 2 as the claim
requires), a parameter state and a voice-pool state on which `render`
panics (indexes `samples[10]` out of bounds), refuting "render never
raises an error for every voice-pool state, parameter state and frame
store of length ≥ 2". -/
theorem C1_counterexample :
    2 ≤ sPast.samples.length ∧ render (fun q => q) sPast [(0, 0)] = none := by
  constructor
  · norm_num [sPast]
  · apply render_none
    show renderVoices _ _ _ [vPast] _ = none
    apply renderVoices_none_head
    apply renderVoice_none
    · rfl
    · simp [vPast]
    · apply voiceLoop_none_of_oob
      have hp : posIndex ((10 : ℚ)) = 10 := by
        rw [posIndex]
        norm_num
        rfl
      show ([⟨0, 0⟩, ⟨0, 0⟩] : List Frame).length ≤ posIndex (10 : ℚ)
      rw [hp]
      norm_num

/-- C2 (amended): the onset scan returns the index of the first frame
whose left or right channel value (signed, not magnitude) is at least
the 0.01 threshold; for an all-zero waveform it returns 0 (not the
frame count), and for a single at-or-above-threshold positive sample at
index k it returns k. -/
theorem C2_findOffset_amended (n k : ℕ) (x : ℚ) (hx : SILENCE ≤ x) :
    findOffset (List.replicate n (⟨0, 0⟩ : Frame)) = 0 ∧
    findOffset (List.replicate k (⟨0, 0⟩ : Frame) ++
      (⟨x, x⟩ : Frame) :: List.replicate n (⟨0, 0⟩ : Frame)) = k := by
  constructor
  · exact findOffsetAux_all_zero n 0
  · rw [findOffset, findOffsetAux_spike k n x hx 0]
    omega

/-- C2 witness: a spike of amplitude 1 at index 3 among zeros is
detected at 3, and a two-frame silent store yields offset 0. -/
theorem C2_witness :
    SILENCE ≤ (1 : ℚ) ∧
    (findOffset (List.replicate 2 (⟨0, 0⟩ : Frame)) = 0 ∧
     findOffset (List.replicate 3 (⟨0, 0⟩ : Frame) ++
       (⟨1, 1⟩ : Frame) :: List.replicate 2 (⟨0, 0⟩ : Frame)) = 3) :=
  ⟨by norm_num [SILENCE], C2_findOffset_amended 2 3 1 (by norm_num [SILENCE])⟩

/-- C2 counterexample: for a waveform of three all-zero frames the scan
returns 0, not the sample count 3 the claim asserts; and a frame of
magnitude 1 but negative sign at index 1 is not detected either (the
scan compares signed values, not magnitudes), so that waveform also
yields 0 where the claim's magnitude reading demands 1. -/
theorem C2_counterexample :
    (findOffset (List.replicate 3 (⟨0, 0⟩ : Frame)) = 0 ∧
     findOffset (List.replicate 3 (⟨0, 0⟩ : Frame)) ≠ 3) ∧
    (findOffset [⟨0, 0⟩, ⟨-1, -1⟩, ⟨0, 0⟩] = 0 ∧
     findOffset [⟨0, 0⟩, ⟨-1, -1⟩, ⟨0, 0⟩] ≠ 1) := by
  have h := findOffsetAux_all_zero 3 0
  refine ⟨⟨h, ?_⟩, ?_, ?_⟩
  · rw [findOffset] at *
    omega
  · norm_num [findOffset, findOffsetAux, SILENCE]
  · norm_num [findOffset, findOffsetAux, SILENCE]

/-- C3 (amended): at construction the Offset parameter is registered
with the detected start offset as its default (and initial) value; its
minimum is 0.0 and its maximum is `f32::MAX` — the detected offset is
the default but not the minimum. -/
theorem C3_offset_param_amended (rate : ℚ) (samples : List Frame) :
    ((mkSampler rate samples).params.get SamplerParam.Offset).val =
      ((findOffset samples : ℕ) : ℚ) ∧
    ((mkSampler rate samples).params.get SamplerParam.Offset).default =
      ((findOffset samples : ℕ) : ℚ) ∧
    ((mkSampler rate samples).params.get SamplerParam.Offset).min = 0 ∧
    ((mkSampler rate samples).params.get SamplerParam.Offset).max = f32MAX :=
  ⟨rfl, rfl, rfl, rfl⟩

/-- C3 counterexample: on the demo store the detected offset is 1 and it
is the Offset parameter's default, but the registered minimum is 0 ≠ 1,
refuting "the detected start-offset is both the default and the
minimum". -/
theorem C3_counterexample :
    ((mkSampler 44100 demoSamples).params.get SamplerParam.Offset).default =
      ((findOffset demoSamples : ℕ) : ℚ) ∧
    ((findOffset demoSamples : ℕ) : ℚ) = 1 ∧
    ((mkSampler 44100 demoSamples).params.get SamplerParam.Offset).min ≠
      ((findOffset demoSamples : ℕ) : ℚ) := by
  refine ⟨rfl, ?_, ?_⟩
  · norm_num [demoSamples, findOffset, findOffsetAux, SILENCE]
  · norm_num [mkSampler, Params.get, Param.new, Param.with_unit,
      demoSamples, findOffset, findOffsetAux, SILENCE]


/-- C5: after a first `note_off` for a (column, pitch), each of two
further `note_off` calls for the same pair is total and leaves the whole
engine state — every voice including its envelope — unchanged. -/
theorem C5_note_off_idempotent (s : Sampler) (c : ℕ) (p : ℤ) :
    note_off (note_off s c p) c p = note_off s c p ∧
    note_off (note_off (note_off s c p) c p) c p = note_off s c p := by
  refine ⟨note_off_idem s c p, ?_⟩
  rw [note_off_idem s c p, note_off_idem s c p]

/-- C6: a `note_on` arriving when no voice is Free leaves the engine
unchanged (the event is dropped, no queueing, no stealing), and along
any `Step` sequence from construction at most 8 (the pool size) voices
are ever Busy. -/
theorem C6_exhaustion_drop_and_pool_bound (powf2 pow10 : ℚ → ℚ)
    (s : Sampler) (c : ℕ) (p : ℤ) (rate : ℚ) (samples : List Frame)
    (t : Sampler) :
    ((∀ v ∈ s.voices, v.state ≠ VoiceState.Free) →
      note_on powf2 s c p = s) ∧
    (Relation.ReflTransGen (Step powf2 pow10) (mkSampler rate samples) t →
      countBusy t.voices ≤ 8) := by
  constructor
  · exact note_on_of_no_free powf2 s c p
  · intro h
    have h1 : countBusy t.voices ≤ t.voices.length :=
      List.length_filter_le _ _
    have h2 := reach_voices_length powf2 pow10 _ t h
    have h3 : (mkSampler rate samples).voices.length = 8 := by
      show (List.replicate 8 Voice.new).length = 8
      simp
    omega

/-- C6 witness: on the exhausted pool `sFull` a `note_on` is the
identity, and the freshly constructed demo engine has at most 8 Busy
voices. -/
theorem C6_witness :
    (∀ v ∈ sFull.voices, v.state ≠ VoiceState.Free) ∧
    note_on (fun _ => 1) sFull 0 48 = sFull ∧
    countBusy (mkSampler 44100 demoSamples).voices ≤ 8 := by
  have hv : ∀ v ∈ sFull.voices, v.state ≠ VoiceState.Free := by
    intro v hvm
    rw [List.eq_of_mem_replicate hvm]
    simp [vB, Voice.new]
  exact ⟨hv,
    (C6_exhaustion_drop_and_pool_bound (fun _ => 1) (fun q => q) sFull 0 48
      44100 demoSamples (mkSampler 44100 demoSamples)).1 hv,
    (C6_exhaustion_drop_and_pool_bound (fun _ => 1) (fun q => q) sFull 0 48
      44100 demoSamples (mkSampler 44100 demoSamples)).2
      Relation.ReflTransGen.refl⟩

/-- C8: in a render pass over a Busy voice (envelope not at rest), if
the voice comes out Free — i.e. its advanced cursor reached `N - 1` —
then it was retired within that same pass: its cursor was reset to the
offset value and every buffer slot after the retirement slot is
untouched by this voice; and a voice that comes out Busy never holds a
cursor at or beyond `N - 1`. -/
theorem C8_end_of_sample_retires (samples : List Frame) (amp offset : ℚ)
    (v v' : Voice) (buf buf' : List (ℚ × ℚ))
    (hbusy : v.state = VoiceState.Busy)
    (henv : v.env.state ≠ EnvelopeState.Init)
    (h : renderVoice samples amp offset v buf = some (v', buf')) :
    (v'.state = VoiceState.Free → v'.position = offset ∧
      ∃ k, k < buf.length ∧ buf'.drop (k + 1) = buf.drop (k + 1)) ∧
    (buf ≠ [] → v'.state = VoiceState.Busy →
      v'.position < lastIdx samples) := by
  have heq : renderVoice samples amp offset v buf =
      voiceLoop samples amp offset v buf := by
    simp [renderVoice, henv, hbusy]
  rw [heq] at h
  exact voiceLoop_retire samples amp offset buf v v' buf' hbusy h

/-- C9: a successful `note_on` (a Free voice exists at pool index `i`)
stores in that voice the pitch ratio
`powf2 ((pitch - ROOT_PITCH) / 12) * (native_rate / SAMPLE_RATE)`, where
`powf2` models `f32::powf(2., ·)`; in particular at `pitch = ROOT_PITCH`
(since `powf2 0 = 1`) the ratio is exactly `native_rate / SAMPLE_RATE`. -/
theorem C9_pitch_ratio_formula (powf2 : ℚ → ℚ) (s : Sampler) (c : ℕ)
    (p : ℤ) (i : ℕ) (vi : Voice) (hi : FirstIdx isFree s.voices i vi) :
    ∃ v', (note_on powf2 s c p).voices[i]? = some v' ∧
      v'.pitch_ratio = powf2 (((p - ROOT_PITCH : ℤ) : ℚ) / 12) *
        (s.sample_rate / SAMPLE_RATE) ∧
      (p = ROOT_PITCH → powf2 0 = 1 →
        v'.pitch_ratio = s.sample_rate / SAMPLE_RATE) := by
  rw [note_on_eq_set powf2 s c p hi]
  have hilen : i < s.voices.length := (List.getElem?_eq_some_iff.mp hi.1).1
  refine ⟨_, List.getElem?_set_self (l := s.voices) hilen, rfl, ?_⟩
  · intro hp hpow
    subst hp
    show powf2 (((ROOT_PITCH - ROOT_PITCH : ℤ) : ℚ) / 12) *
      (s.sample_rate / SAMPLE_RATE) = _
    rw [sub_self]
    norm_num [hpow]

/-- C9 witness: on the fresh demo engine (first Free voice at index 0)
with `powf2` the constant 1 and `pitch = ROOT_PITCH`, the allocated
pitch ratio is `44100 / 44100 = 1`. -/
theorem C9_witness :
    FirstIdx isFree demoSampler.voices 0 Voice.new ∧
    ∃ v', (note_on (fun _ => 1) demoSampler 0 ROOT_PITCH).voices[0]? =
        some v' ∧
      v'.pitch_ratio = (fun _ => (1 : ℚ)) (((ROOT_PITCH - ROOT_PITCH : ℤ) :
        ℚ) / 12) * (demoSampler.sample_rate / SAMPLE_RATE) ∧
      (ROOT_PITCH = ROOT_PITCH → (fun _ => (1 : ℚ)) 0 = 1 →
        v'.pitch_ratio = demoSampler.sample_rate / SAMPLE_RATE) := by
  have hfi : FirstIdx isFree demoSampler.voices 0 Voice.new :=
    ⟨rfl, rfl, rfl⟩
  exact ⟨hfi, C9_pitch_ratio_formula (fun _ => 1) demoSampler 0 ROOT_PITCH 0
    Voice.new hfi⟩

/-- C10: `set_param` on a Sampler-owned key stores the value verbatim as
the parameter's current value — no clamping to the registered minimum,
maximum or step, which stay untouched — leaves every other parameter
unchanged, returns `Ok`, and on a key not owned by this instrument it is
an `Ok` no-op. -/
theorem C10_set_param_verbatim (s : Sampler) (key : SamplerParam) (v : ℚ) :
    set_param s (ParamKey.Sampler key) v =
      Except.ok { s with params := s.params.set key v } ∧
    (s.params.set key v).get key = { s.params.get key with val := v } ∧
    (∀ k2, k2 ≠ key → (s.params.set key v).get k2 = s.params.get k2) ∧
    set_param s ParamKey.Other v = Except.ok s :=
  ⟨rfl, Params.get_set_self s.params key v,
   fun k2 h => Params.get_set_ne s.params key k2 v h, rfl⟩

/-- C10 witness: writing 1000 (far above the registered maximum 6) to
Amp is stored verbatim and leaves the Offset parameter untouched. -/
theorem C10_witness :
    set_param demoSampler (ParamKey.Sampler SamplerParam.Amp) 1000 =
      Except.ok { demoSampler with
        params := demoSampler.params.set SamplerParam.Amp 1000 } ∧
    ((demoSampler.params.set SamplerParam.Amp 1000).get
      SamplerParam.Amp).val = 1000 ∧
    (demoSampler.params.set SamplerParam.Amp 1000).get SamplerParam.Offset =
      demoSampler.params.get SamplerParam.Offset :=
  ⟨(C10_set_param_verbatim demoSampler SamplerParam.Amp 1000).1,
   by rw [(C10_set_param_verbatim demoSampler SamplerParam.Amp 1000).2.1],
   (C10_set_param_verbatim demoSampler SamplerParam.Amp 1000).2.2.1
     SamplerParam.Offset (by decide)⟩


/-- C4 (amended): along any `StepOK` sequence from construction — i.e.
provided the native rate is nonnegative, the detected onset is below
`N - 1`, `powf2` is positive (as the real `2^x` is), and every host
write to the Offset parameter stays inside `[0, N-1)` — every Busy
voice's cursor lies in `[0, N-1)`.  The claim's unconditional form, and
its half stating that every Free voice's cursor equals the current
start-offset value, are refuted by `C4_counterexample`. -/
theorem C4_busy_cursor_invariant_amended (powf2 pow10 : ℚ → ℚ)
    (hp : ∀ q, 0 < powf2 q) (rate : ℚ) (samples : List Frame)
    (hN : 2 ≤ samples.length) (hrate : 0 ≤ rate)
    (hoff : ((findOffset samples : ℕ) : ℚ) < lastIdx samples) (s : Sampler)
    (h : Relation.ReflTransGen (StepOK powf2 pow10)
      (mkSampler rate samples) s) :
    ∀ v ∈ s.voices, v.state = VoiceState.Busy →
      0 ≤ v.position ∧ v.position < lastIdx s.samples := by
  have hInv := inv_reachOK powf2 pow10 hp _ s h
    (inv_mkSampler rate samples hN hrate hoff)
  intro v hv _
  exact ⟨(hInv.2.2.2.2 v hv).1, (hInv.2.2.2.2 v hv).2.1⟩

/-- C4 witness: the freshly constructed demo engine (empty step
sequence) satisfies the Busy-cursor bound. -/
theorem C4_witness :
    (((findOffset demoSamples : ℕ) : ℚ) < lastIdx demoSamples) ∧
    (∀ v ∈ (mkSampler 44100 demoSamples).voices,
      v.state = VoiceState.Busy → 0 ≤ v.position ∧
        v.position < lastIdx (mkSampler 44100 demoSamples).samples) := by
  have hoff : ((findOffset demoSamples : ℕ) : ℚ) < lastIdx demoSamples := by
    norm_num [demoSamples, findOffset, findOffsetAux, SILENCE, lastIdx]
  exact ⟨hoff, C4_busy_cursor_invariant_amended (fun _ => 1) (fun q => q)
    (fun _ => one_pos) 44100 demoSamples (by norm_num [demoSamples])
    (by norm_num) hoff _ Relation.ReflTransGen.refl⟩

/-- C4 counterexample: (a) at construction (the empty call sequence) the
demo engine's Free voices hold cursor 0 while the Offset parameter is 1,
refuting "every Free voice's position equals the registry's current
start-offset value"; (b) the state `s4c`, reached from construction by
`set_param Offset 10`, one `render`, and one `NoteOn`, holds a Busy
voice with cursor 10 outside `[0, N-1) = [0, 3)`, refuting the
unconditional Busy-cursor bound. -/
theorem C4_counterexample :
    (∃ v ∈ demoSampler.voices, v.state = VoiceState.Free ∧
      v.position ≠ get_param demoSampler SamplerParam.Offset) ∧
    s4c.voices[0]? = some v4c ∧ v4c.state = VoiceState.Busy ∧
    ¬ v4c.position < lastIdx s4c.samples := by
  refine ⟨⟨Voice.new, ?_, rfl, ?_⟩, ?_, rfl, ?_⟩
  · show Voice.new ∈ List.replicate 8 Voice.new
    simp
  · norm_num [Voice.new, get_param, demoSampler, mkSampler, Params.get,
      Param.new, Param.with_unit, demoSamples, findOffset, findOffsetAux,
      SILENCE]
  · norm_num [s4c, s4b, s4a, demoSampler, demoSamples, mkSampler, okState,
      someState, set_param, render, renderVoices, renderVoice, voiceLoop,
      send_event, stop_note, note_on, note_off, get_param, Params.get,
      Params.set, Param.new, Param.with_unit, gain_factor, modifyFirst,
      colMatch, isFree, findOffset, findOffsetAux, SILENCE, lastIdx,
      List.replicate, Voice.new, Envelope.new, v4c, SAMPLE_RATE, ROOT_PITCH,
      Envelope.start_attack, Envelope.start_release, Envelope.value,
      Frame.mul, Frame.add, posIndex, noteMatch]
  · norm_num [s4c, s4b, s4a, demoSampler, demoSamples, mkSampler, okState,
      someState, set_param, render, renderVoices, renderVoice, voiceLoop,
      send_event, stop_note, note_on, note_off, get_param, Params.get,
      Params.set, Param.new, Param.with_unit, gain_factor, modifyFirst,
      colMatch, isFree, findOffset, findOffsetAux, SILENCE, lastIdx,
      List.replicate, Voice.new, Envelope.new, v4c, SAMPLE_RATE, ROOT_PITCH,
      Envelope.start_attack, Envelope.start_release, Envelope.value,
      Frame.mul, Frame.add, posIndex, noteMatch]

/-- C7: handling `NoteOn` first forces the column's Busy voice (pool
slot `j`) into release with the forced short release duration 0.005 s,
and only then allocates the first Free voice in pool order (slot `i`,
untouched by the stop) for the new note, which becomes Busy with the
requested pitch and column and a freshly started attack. -/
theorem C7_steal_then_allocate (powf2 : ℚ → ℚ) (s : Sampler) (c : ℕ)
    (p : ℤ) (j i : ℕ) (vj vi : Voice)
    (hj : FirstIdx (colMatch c) s.voices j vj)
    (hi : FirstIdx isFree s.voices i vi) :
    send_event powf2 s c (Event.NoteOn p) =
      note_on powf2 (stop_note s c) c p ∧
    (send_event powf2 s c (Event.NoteOn p)).voices[j]? =
      some { vj with env :=
        Envelope.start_release { vj.env with release := 1/200 } } ∧
    (send_event powf2 s c (Event.NoteOn p)).voices[i]? =
      some { vi with
        env := Envelope.start_attack
          { vi.env with attack := get_param s SamplerParam.Attack
                        decay := get_param s SamplerParam.Decay
                        sustain := get_param s SamplerParam.Sustain
                        release := get_param s SamplerParam.Release }
        state := VoiceState.Busy
        pitch := p
        column := c
        pitch_ratio := powf2 (((p - ROOT_PITCH : ℤ) : ℚ) / 12)
          * (s.sample_rate / SAMPLE_RATE) } := by
  have hjbusy : vj.state = VoiceState.Busy := (of_decide_eq_true hj.2.1).1
  have hjfree : isFree vj = false := by
    simp [isFree, hjbusy]
  have hgfree : isFree { vj with env :=
      (Envelope.start_release { vj.env with release := 1/200 }) } = false :=
    hjfree
  have hjlen : j < s.voices.length := (List.getElem?_eq_some_iff.mp hj.1).1
  have hilen : i < s.voices.length := (List.getElem?_eq_some_iff.mp hi.1).1
  have hij : i ≠ j := firstIdx_ne hi hj.1 hi.2.1 hjfree
  have hstop := stop_note_eq_set s c hj
  have hi2 : FirstIdx isFree (stop_note s c).voices i vi := by
    rw [hstop]
    exact firstIdx_set_of_false hi hj.1 hjfree hgfree
  refine ⟨rfl, ?_, ?_⟩
  · show (note_on powf2 (stop_note s c) c p).voices[j]? = _
    rw [note_on_eq_set powf2 (stop_note s c) c p hi2, hstop]
    show ((s.voices.set j _).set i _)[j]? = _
    rw [List.getElem?_set_ne hij, List.getElem?_set_self hjlen]
  · show (note_on powf2 (stop_note s c) c p).voices[i]? = _
    rw [note_on_eq_set powf2 (stop_note s c) c p hi2, hstop]
    show ((s.voices.set j _).set i _)[i]? = _
    rw [List.getElem?_set_self (by simpa using hilen)]
    rfl

/-- C7 witness: on the two-voice engine `s7` (slot 0 Busy on column 3,
slot 1 Free), `NoteOn` on column 3 forces slot 0 into a 5 ms release and
allocates slot 1. -/
theorem C7_witness :
    FirstIdx (colMatch 3) s7.voices 0 v7a ∧
    FirstIdx isFree s7.voices 1 Voice.new ∧
    ((send_event (fun _ => 1) s7 3 (Event.NoteOn 60) =
      note_on (fun _ => 1) (stop_note s7 3) 3 60) ∧
    (send_event (fun _ => 1) s7 3 (Event.NoteOn 60)).voices[0]? =
      some { v7a with env :=
        Envelope.start_release { v7a.env with release := 1/200 } } ∧
    (send_event (fun _ => 1) s7 3 (Event.NoteOn 60)).voices[1]? =
      some { Voice.new with
        env := Envelope.start_attack
          { Voice.new.env with
              attack := get_param s7 SamplerParam.Attack
              decay := get_param s7 SamplerParam.Decay
              sustain := get_param s7 SamplerParam.Sustain
              release := get_param s7 SamplerParam.Release }
        state := VoiceState.Busy
        pitch := 60
        column := 3
        pitch_ratio := (fun _ => (1 : ℚ)) (((60 - ROOT_PITCH : ℤ) : ℚ) / 12)
          * (s7.sample_rate / SAMPLE_RATE) }) := by
  have hj : FirstIdx (colMatch 3) s7.voices 0 v7a := ⟨rfl, by decide, rfl⟩
  have hi : FirstIdx isFree s7.voices 1 Voice.new := ⟨rfl, rfl, by decide⟩
  exact ⟨hj, hi, C7_steal_then_allocate (fun _ => 1) s7 3 60 0 1 v7a
    Voice.new hj hi⟩

/-- C8 witness: over a two-frame store, a Busy voice at cursor 0 with
pitch ratio 5 passes `N - 1 = 1` on the first of two output slots and is
retired there: it comes out Free at the offset value 1/2 and the second
slot is untouched. -/
theorem C8_witness :
    (v8.state = VoiceState.Busy ∧ v8.env.state ≠ EnvelopeState.Init ∧
      renderVoice [⟨1, 1⟩, ⟨1, 1⟩] 1 (1/2) v8 [(0, 0), (0, 0)] =
        some (v8r, [(1, 1), (0, 0)])) ∧
    ((v8r.state = VoiceState.Free → v8r.position = 1/2 ∧
      ∃ k, k < ([(0, 0), (0, 0)] : List (ℚ × ℚ)).length ∧
        ([((1 : ℚ), (1 : ℚ)), (0, 0)] : List (ℚ × ℚ)).drop (k + 1) =
          ([(0, 0), (0, 0)] : List (ℚ × ℚ)).drop (k + 1)) ∧
     (([(0, 0), (0, 0)] : List (ℚ × ℚ)) ≠ [] →
       v8r.state = VoiceState.Busy →
       v8r.position < lastIdx [⟨1, 1⟩, ⟨1, 1⟩])) := by
  have h1 : v8.state = VoiceState.Busy := rfl
  have h2 : v8.env.state ≠ EnvelopeState.Init := by decide
  have h3 : renderVoice [(⟨1, 1⟩ : Frame), ⟨1, 1⟩] 1 (1/2) v8
      [(0, 0), (0, 0)] = some (v8r, [(1, 1), (0, 0)]) := by
    have heq : renderVoice [(⟨1, 1⟩ : Frame), ⟨1, 1⟩] 1 (1/2) v8
        [(0, 0), (0, 0)] = voiceLoop [⟨1, 1⟩, ⟨1, 1⟩] 1 (1/2) v8
        [(0, 0), (0, 0)] := by
      simp [renderVoice, v8]
    rw [heq, voiceLoop]
    norm_num [v8, v8r, posIndex, lastIdx, Frame.mul, Frame.add,
      Envelope.value]
  exact ⟨⟨h1, h2, h3⟩, C8_end_of_sample_retires [⟨1, 1⟩, ⟨1, 1⟩] 1 (1/2)
    v8 v8r [(0, 0), (0, 0)] [(1, 1), (0, 0)] h1 h2 h3⟩

end Ruis
